import Mathlib

/-!
Verification development for the dhcp4d DHCPv4 handler
(package `internal/dhcp4d` of the dhcpeterd daemon).

The Go handler is embedded shallowly:

* IPv4 addresses are modelled by their 4-byte big-endian value, a `Nat`
  strictly below `2^32`.  A Go `net.IP` value that may have a length other
  than 4 is modelled by `GoIP := Option Nat`: `some v` is a 4-byte address
  with value `v`, `none` stands for `nil` or any slice whose length is not 4
  (such values are rejected by every length check in the handler).
* Go `time.Time` is modelled by a `Nat` instant; the zero value of
  `time.Time` is `0`.  `time.Duration` is modelled by a `Nat` number of
  nanoseconds, as in Go.
* Go maps are modelled by association lists with the lookup/insert/delete
  operations `alookup`/`ainsert`/`adelete`; `ainsert` removes the previous
  binding, so the list length matches Go's `len(map)` whenever the initial
  map was built by these operations.
* The injected clock `h.timeNow()` is passed as an explicit `now` argument;
  the Go standard library clock `time.Now()` (used verbatim by
  `expireLease`) is passed as a separate `wallNow` argument.
* `rand.Intn(h.leaseRange)` in `findLease` is passed as an explicit `rnd`
  argument.
* The helpers `dhcp4.IPRange`/`dhcp4.IPAdd` of the pinned dependency
  `github.com/krolaw/dhcp4` are embedded as `ipRange`/`ipAdd`:
  `IPRange(start, stop)` is the inclusive count `stop - start + 1` computed
  on Go `int`s of the two `uint32` values, and `IPAdd(start, add)` adds
  `uint32(add)` with 32-bit wraparound.
* Replies are modelled by the fields the handler chooses: message type,
  server identifier, `yiaddr` and lease duration.  The serialized option
  list (`SelectOrderOrAll`) and the raw Ethernet/IP/UDP framing are not
  modelled.
-/

/-- A Go `net.IP`: `some v` is a 4-byte address of value `v`, `none` any
slice whose length is not 4 (including `nil`). -/
abbrev GoIP := Option Nat

/-- Embedding of `dhcp4.IPRange(start, stop)`: the inclusive address count
`int(uint32(stop)) - int(uint32(start)) + 1` on Go `int`s. -/
def ipRange (start stop : Nat) : Int :=
  (stop : Int) - (start : Int) + 1

/-- Embedding of `dhcp4.IPAdd(start, add)`: `uint32` addition of `start`
and `uint32(add)` with wraparound modulo `4294967296 = 2^32`. -/
def ipAdd (start : Nat) (add : Int) : Nat :=
  (((start : Int) + add) % (4294967296 : Int)).toNat

/-- The lease record of `dhcp4d.Lease`.  `expiry = 0` is Go's zero
`time.Time` ("permanent lease"); likewise for `lastACK`. -/
structure Lease where
  num : Int
  addr : Nat
  hardwareAddr : String
  hostname : String
  hostnameOverride : String
  expiry : Nat
  lastACK : Nat
deriving DecidableEq

/-- The static lease record of `dhcp4d.StaticLease`.  All static leases
built by the daemon's `run` carry a 4-byte address, so `addr` is a plain
value. -/
structure StaticLease where
  addr : Nat
  hardwareAddr : String
  hostname : String
deriving DecidableEq

/-- Embedding of `(*Lease).Expired(at)`:
`!l.Expiry.IsZero() && at.After(l.Expiry)`. -/
def leaseExpiredB (l : Lease) (at_ : Nat) : Bool :=
  decide (l.expiry ≠ 0) && decide (l.expiry < at_)

/-- Embedding of `(*Lease).Active(at)`:
`!l.LastACK.IsZero() && at.Before(l.LastACK.Add(leasePeriod))`, with
`leasePeriod = 20 * time.Minute` in nanoseconds. -/
def leaseActiveB (l : Lease) (at_ : Nat) : Bool :=
  decide (l.lastACK ≠ 0) && decide (at_ < l.lastACK + 1200000000000)

/-- Association-list lookup; the model of Go map indexing with `ok`. -/
def alookup {κ α : Type} [DecidableEq κ] : List (κ × α) → κ → Option α
  | [], _ => none
  | e :: rest, k => if e.1 = k then some e.2 else alookup rest k

/-- Association-list delete; the model of Go `delete(m, k)`. -/
def adelete {κ α : Type} [DecidableEq κ] (m : List (κ × α)) (k : κ) :
    List (κ × α) :=
  m.filter (fun e => decide (e.1 ≠ k))

/-- Association-list insert; the model of Go `m[k] = v`. -/
def ainsert {κ α : Type} [DecidableEq κ] (m : List (κ × α)) (k : κ) (v : α) :
    List (κ × α) :=
  (k, v) :: adelete m k

/-- The per-interface handler state of `dhcp4d.Handler`.  `leasesCb` models
whether the optional observer `h.Leases` is non-nil. -/
structure Handler where
  serverIP : Nat
  start : Nat
  leaseRange : Int
  leasePeriod : Nat
  staticLeases : List (String × StaticLease)
  reservedOffsets : List Int
  leasesHW : List (String × Int)
  leasesIP : List (Int × Lease)
  leasesCb : Bool
deriving DecidableEq

/-- ASCII lowercasing of one character; `strings.ToLower` restricted to the
ASCII MAC strings produced by `net.HardwareAddr.String()`. -/
def lowerChar (c : Char) : Char :=
  if 'A' ≤ c ∧ c ≤ 'Z' then Char.ofNat (c.toNat + 32) else c

/-- ASCII `strings.ToLower` on a MAC string. -/
def lowerString (s : String) : String :=
  String.mk (s.data.map lowerChar)

/-- The lease-database part of `dhcp4d.NewHandler`: each static lease is
keyed by its lowercased MAC in `staticLeases`, and
`dhcp4.IPRange(startIP, sl.Addr)` is inserted into `reservedOffsets`.
The raw socket, DNS option bytes and logging are not modelled. -/
def newHandler (serverIP startIP : Nat) (leaseRange : Int) (leasePeriod : Nat)
    (statics : List StaticLease) : Handler :=
  { serverIP := serverIP
    start := startIP
    leaseRange := leaseRange
    leasePeriod := leasePeriod
    staticLeases :=
      statics.foldl (fun m sl => ainsert m (lowerString sl.hardwareAddr) sl) []
    reservedOffsets := statics.map (fun sl => ipRange startIP sl.addr)
    leasesHW := []
    leasesIP := []
    leasesCb := false }

/-- Embedding of `(*Handler).SetLeases`: both indices are rebuilt from the
given list, and a zero `lastACK` is replaced by the lease's `expiry`. -/
def setLeases (h : Handler) (leases : List Lease) : Handler :=
  leases.foldl
    (fun h' l0 =>
      let l := if l0.lastACK = 0 then { l0 with lastACK := l0.expiry } else l0
      { h' with
        leasesHW := ainsert h'.leasesHW l.hardwareAddr l.num
        leasesIP := ainsert h'.leasesIP l.num l })
    { h with leasesHW := [], leasesIP := [] }

/-- Embedding of `(*Handler).leaseHW`: the lookup succeeds only when
`leasesHW` has the key, the offset it names is populated, and the lease
found there is owned by the same hardware address. -/
def leaseHW (h : Handler) (hwAddr : String) : Option Lease :=
  match alookup h.leasesHW hwAddr with
  | none => none
  | some num =>
    match alookup h.leasesIP num with
    | none => none
    | some l => if l.hardwareAddr = hwAddr then some l else none

/-- Embedding of `(*Handler).canLease`.  The returned offset, when
non-negative, is `dhcp4.IPRange(h.start, reqIP) - 1`, i.e. exactly
`reqIP - start`. -/
def canLease (h : Handler) (reqIP : GoIP) (hwaddr : String) (now : Nat) : Int :=
  match reqIP with
  | none => -1
  | some v =>
    if v = 0 then -1
    else
      let leaseNum := ipRange h.start v - 1
      if leaseNum < 0 then -1
      else
        match alookup h.leasesIP leaseNum with
        | none => if h.leaseRange ≤ leaseNum then -1 else leaseNum
        | some l =>
          if l.hardwareAddr = hwaddr then leaseNum
          else if h.leaseRange ≤ leaseNum then -1
          else if leaseExpiredB l now then leaseNum
          else -1

/-- One offset is free for dynamic allocation when it is vacant or its
lease is expired, and it is not reserved; the conjunction tested twice by
`findLease`. -/
def vacantNotReserved (h : Handler) (now : Nat) (i : Int) : Bool :=
  (match alookup h.leasesIP i with
   | none => true
   | some l => leaseExpiredB l now)
  && !(h.reservedOffsets.contains i)

/-- Embedding of `(*Handler).findLease`: if the database is not full, first
probe the random offset `rnd`, then linearly scan `0 .. leaseRange-1`, and
return `-1` when nothing is free. -/
def findLease (h : Handler) (now : Nat) (rnd : Int) : Int :=
  if (h.leasesIP.length : Int) < h.leaseRange then
    if vacantNotReserved h now rnd then rnd
    else
      match (List.range h.leaseRange.toNat).find?
          (fun i => vacantNotReserved h now (Int.ofNat i)) with
      | some i => (i : Int)
      | none => -1
  else -1

/-- The value of a Go hex digit, as accepted by `encoding/hex`. -/
def hexDigitVal (c : Char) : Option Nat :=
  if '0' ≤ c ∧ c ≤ '9' then some (c.toNat - '0'.toNat)
  else if 'a' ≤ c ∧ c ≤ 'f' then some (c.toNat - 'a'.toNat + 10)
  else if 'A' ≤ c ∧ c ≤ 'F' then some (c.toNat - 'A'.toNat + 10)
  else none

/-- Embedding of `hex.DecodeString`: an odd length or an invalid digit is
an error (`none`), matching the `err != nil` check in the handler. -/
def hexDecode : List Char → Option (List Nat)
  | [] => some []
  | [_] => none
  | c1 :: c2 :: rest =>
    match hexDigitVal c1, hexDigitVal c2, hexDecode rest with
    | some a, some b, some bs => some ((a * 16 + b) :: bs)
    | _, _, _ => none

/-- Embedding of `bytes.Compare` on byte slices: lexicographic order with
the shorter slice first. -/
def bytesCompare : List Nat → List Nat → Ordering
  | [], [] => .eq
  | [], _ :: _ => .lt
  | _ :: _, [] => .gt
  | a :: as, b :: bs =>
    if a < b then .lt else if b < a then .gt else bytesCompare as bs

/-- The loop of `sort.Search`, with an explicit fuel so that the
definition is structurally recursive; `fuel ≥ j - i` makes the fuel
inexhaustible. -/
def goSearchAux (f : Nat → Bool) : Nat → Nat → Nat → Nat
  | 0, i, _ => i
  | fuel + 1, i, j =>
    if i < j then
      let m := (i + j) / 2
      if f m then goSearchAux f fuel i m else goSearchAux f fuel (m + 1) j
    else i

/-- Embedding of `sort.Search(n, f)` as the Go binary search over the
half-open interval `[i, j)`. -/
def goSearch (f : Nat → Bool) (i j : Nat) : Nat :=
  goSearchAux f (j - i) i j

/-- One hour in nanoseconds, the vendor lease period `1 * time.Hour`. -/
def hourDuration : Nat := 3600000000000

/-- Embedding of `(*Handler).leasePeriodForDevice`.  The vendor prefix
table `nintendoMacPrefixes` is not part of the sources, so the table is an
explicit parameter: a list of 3-byte OUI entries searched with
`sort.Search` under `bytes.Compare`. -/
def leasePeriodForDevice (table : List (List Nat)) (h : Handler)
    (hwAddr : String) : Nat :=
  match hexDecode (hwAddr.data.filter (fun c => decide (c ≠ ':'))) with
  | none => h.leasePeriod
  | some bytes =>
    if bytes.length ≠ 6 then h.leasePeriod
    else
      let oui := bytes.take 3
      let i := goSearch
        (fun j => decide (bytesCompare (table.getD j []) oui ≠ .lt))
        0 table.length
      if i < table.length ∧ table.getD i [] = oui then hourDuration
      else h.leasePeriod

/-- The fields of a DHCPv4 packet read by `serveDHCP`: `CIAddr`, the
lowercase `CHAddr().String()`, option 50 (requested IP), option 54
(server identifier) and option 12 (hostname, `""` when absent). -/
structure Packet where
  ciaddr : Nat
  chaddr : String
  optReqIP : Option GoIP
  optServerId : Option GoIP
  optHostname : String
deriving DecidableEq

/-- The DHCP message types interpreted by `serveDHCP`; every other type is
`other`. -/
inductive MsgType
  | discover
  | request
  | decline
  | other
deriving DecidableEq

/-- The reply kinds `serveDHCP` can build with `dhcp4.ReplyPacket`. -/
inductive ReplyType
  | offer
  | ack
  | nak
deriving DecidableEq

/-- The handler-chosen fields of a `dhcp4.ReplyPacket`. -/
structure Reply where
  rtype : ReplyType
  serverIP : Nat
  yiaddr : GoIP
  duration : Nat
deriving DecidableEq

/-- Result of one `serveDHCP` (or `SetHostname`) step: the new handler
state, the optional reply, and the snapshots handed to the `Leases`
observer (each is the full lease list plus the lease just touched). -/
structure StepResult where
  state : Handler
  reply : Option Reply
  notifs : List (List Lease × Lease)
deriving DecidableEq

/-- Embedding of `(*Handler).callLeasesLocked`: when the observer is
registered, one snapshot of all current leases plus the touched lease. -/
def snapshotNotifs (h : Handler) (touched : Lease) : List (List Lease × Lease) :=
  if h.leasesCb then [(h.leasesIP.map Prod.snd, touched)] else []

/-- The requested IP of a packet: option 50 when present, else `CIAddr`. -/
def effReqIP (p : Packet) : GoIP :=
  match p.optReqIP with
  | some ip => ip
  | none => some p.ciaddr

/-- The DISCOVER branch of `serveDHCP`, which never mutates state: the
static lease is tried first, then (only when the candidate is still
negative) the requested IP; an existing non-expired lease for the client
then overrides the candidate unconditionally; `findLease` runs only when
the candidate is exactly `-1`. -/
def discoverReply (table : List (List Nat)) (h : Handler) (p : Packet)
    (now : Nat) (rnd : Int) : Option Reply :=
  let reqIP := effReqIP p
  let hwAddr := p.chaddr
  let free1 : Int :=
    match alookup h.staticLeases (lowerString hwAddr) with
    | some sl => canLease h (some sl.addr) hwAddr now
    | none => -1
  let free2 : Int :=
    if free1 < 0 ∧ reqIP ≠ some 0 then canLease h reqIP hwAddr now else free1
  let free3 : Int :=
    match leaseHW h hwAddr with
    | some l => if leaseExpiredB l now then free2 else l.num
    | none => free2
  let free4 : Int := if free3 = -1 then findLease h now rnd else free3
  if free4 = -1 then none
  else some
    { rtype := .offer
      serverIP := h.serverIP
      yiaddr := some (ipAdd h.start free4)
      duration := leasePeriodForDevice table h hwAddr }

/-- Value of a 4-byte `GoIP`, used where the Go code has already
length-checked the address (`copy(lease.Addr, reqIP.To4())`). -/
def goIPVal (ip : GoIP) : Nat := ip.getD 0

/-- The accepting path of the REQUEST branch: build the new lease, inherit
permanence and hostname override from the client's previous lease (which is
also deleted), store the lease in both indices and notify the observer. -/
def requestAck (table : List (List Nat)) (h : Handler) (p : Packet)
    (now : Nat) (leaseNum : Int) : StepResult :=
  let hwAddr := p.chaddr
  let reqIP := effReqIP p
  let lease0 : Lease :=
    { num := leaseNum
      addr := goIPVal reqIP
      hardwareAddr := hwAddr
      hostname := p.optHostname
      hostnameOverride := ""
      expiry := now + leasePeriodForDevice table h hwAddr
      lastACK := now }
  let prev := leaseHW h hwAddr
  let lease1 : Lease :=
    match prev with
    | some l =>
      let la :=
        if l.expiry = 0 then { lease0 with expiry := 0, hostname := l.hostname }
        else lease0
      if l.hostnameOverride ≠ "" then
        { la with hostname := l.hostnameOverride
                  hostnameOverride := l.hostnameOverride }
      else la
    | none => lease0
  let ip1 :=
    match prev with
    | some l => adelete h.leasesIP l.num
    | none => h.leasesIP
  let h' := { h with
    leasesIP := ainsert ip1 leaseNum lease1
    leasesHW := ainsert h.leasesHW lease1.hardwareAddr leaseNum }
  { state := h'
    reply := some
      { rtype := .ack
        serverIP := h.serverIP
        yiaddr := reqIP
        duration := leasePeriodForDevice table h hwAddr }
    notifs := snapshotNotifs h' lease1 }

/-- The REQUEST branch after the server-identifier check: NAK when
`canLease` rejects, otherwise the accepting path. -/
def serveRequestBody (table : List (List Nat)) (h : Handler) (p : Packet)
    (now : Nat) : StepResult :=
  if canLease h (effReqIP p) p.chaddr now = -1 then
    { state := h
      reply := some
        { rtype := .nak, serverIP := h.serverIP, yiaddr := none, duration := 0 }
      notifs := [] }
  else requestAck table h p now (canLease h (effReqIP p) p.chaddr now)

/-- The guard `ok && !net.IP(server).Equal(h.serverIP)` of the REQUEST
branch: option 54 is present and names a different server. -/
def wrongServerB (h : Handler) (p : Packet) : Bool :=
  match p.optServerId with
  | some sid => decide (sid ≠ some h.serverIP)
  | none => false

/-- The REQUEST branch of `serveDHCP`: a present server identifier that
differs from `h.serverIP` is dropped silently. -/
def serveRequest (table : List (List Nat)) (h : Handler) (p : Packet)
    (now : Nat) : StepResult :=
  if wrongServerB h p then { state := h, reply := none, notifs := [] }
  else serveRequestBody table h p now

/-- The DECLINE branch of `serveDHCP`, i.e. `(*Handler).expireLease`: it
sets the lease's expiry to `time.Now()` — the wall clock, not the injected
`h.timeNow` — and never replies and never notifies the observer. -/
def serveDecline (h : Handler) (p : Packet) (wallNow : Nat) : StepResult :=
  match alookup h.leasesHW p.chaddr with
  | none => { state := h, reply := none, notifs := [] }
  | some num =>
    match alookup h.leasesIP num with
    | none => { state := h, reply := none, notifs := [] }
    | some l =>
      if l.hardwareAddr ≠ p.chaddr then { state := h, reply := none, notifs := [] }
      else
        { state := { h with leasesIP := ainsert h.leasesIP num { l with expiry := wallNow } }
          reply := none
          notifs := [] }

/-- Embedding of `(*Handler).serveDHCP`: dispatch on the message type.
`now` is the injected clock `h.timeNow()`, `wallNow` the wall clock
`time.Now()` used by `expireLease`, `rnd` the random probe of `findLease`. -/
def serveDHCP (table : List (List Nat)) (h : Handler) (p : Packet)
    (msgType : MsgType) (now wallNow : Nat) (rnd : Int) : StepResult :=
  match msgType with
  | .discover => { state := h, reply := discoverReply table h p now rnd, notifs := [] }
  | .request => serveRequest table h p now
  | .decline => serveDecline h p wallNow
  | .other => { state := h, reply := none, notifs := [] }

/-- Outcome of `(*Handler).SetHostname`: `crash` is the nil-pointer
dereference the Go code performs when `leasesIP` has no lease at the
(possibly zero-valued) offset obtained from `leasesHW`. -/
inductive HostnameResult
  | crash
  | failed (msg : String)
  | ok (h : Handler) (notifs : List (List Lease × Lease))
deriving DecidableEq

/-- Embedding of `(*Handler).SetHostname`: the offset is read from
`leasesHW` with Go's zero-value fallback, the lease pointer is then
dereferenced without a presence check. -/
def setHostname (h : Handler) (hwaddr hostname : String) (now : Nat) :
    HostnameResult :=
  let leaseNum := (alookup h.leasesHW hwaddr).getD 0
  match alookup h.leasesIP leaseNum with
  | none => .crash
  | some lease =>
    if lease.hardwareAddr ≠ hwaddr ∨ leaseExpiredB lease now then
      .failed ("hwaddr " ++ hwaddr ++ " does not have a valid lease")
    else
      let lease' := { lease with hostname := hostname, hostnameOverride := hostname }
      let h' := { h with leasesIP := ainsert h.leasesIP leaseNum lease' }
      .ok h' (snapshotNotifs h' lease')

/-- The per-lease part of the spec's invariants, strengthened with the fact
that every lease is stored at the offset equal to its `num` field. -/
def StrongInv (h : Handler) : Prop :=
  ∀ k l, alookup h.leasesIP k = some l →
    k = l.num ∧ 0 ≤ l.num ∧ l.num < h.leaseRange ∧ l.addr = ipAdd h.start l.num

/-- The direction of the index-agreement invariant that the code actually
maintains: every stored lease is indexed by its own hardware address. -/
def RevInv (h : Handler) : Prop :=
  ∀ k l, alookup h.leasesIP k = some l →
    alookup h.leasesHW l.hardwareAddr = some k

/-- The combined lease-database invariant. -/
def FullInv (h : Handler) : Prop := StrongInv h ∧ RevInv h

/-- Well-formedness of a Go IP value: a 4-byte address is below `2^32`. -/
def GoIPWF : GoIP → Prop
  | none => True
  | some v => v < 4294967296

/-- Well-formedness of a packet: its effective requested IP is a real
4-byte value when it is 4 bytes long. -/
def PacketWF (p : Packet) : Prop := GoIPWF (effReqIP p)

/-- Handler states reachable by `serveDHCP` steps from any state whose
lease database satisfies the invariant — in particular from the empty
database of `NewHandler` or from a consistent `SetLeases` restore. -/
inductive Reachable (table : List (List Nat)) : Handler → Prop
  | restore (h : Handler) (hwf : h.start < 4294967296) (hinv : FullInv h) :
      Reachable table h
  | step (h : Handler) (p : Packet) (m : MsgType) (now wallNow : Nat)
      (rnd : Int) (hp : PacketWF p) (hr : Reachable table h) :
      Reachable table (serveDHCP table h p m now wallNow rnd).state

/-- Byte-slice order used for the vendor prefix table: `a ≤ b` under
`bytes.Compare`. -/
def leB (a b : List Nat) : Prop := bytesCompare a b ≠ Ordering.gt

/-- Specification-side test of the vendor policy: the MAC string parses to
6 bytes and its 3-byte OUI is a member of the table. -/
def ouiInTable (table : List (List Nat)) (hwAddr : String) : Bool :=
  match hexDecode (hwAddr.data.filter (fun c => decide (c ≠ ':'))) with
  | none => false
  | some bytes => decide (bytes.length = 6) && table.contains (bytes.take 3)

/-- The DISCOVER candidate selection in the amended order: an existing
non-expired lease for the client takes precedence over the static-lease and
requested-IP candidates; when there is none, the static candidate is tried
first and, if negative, the requested IP; `findLease` runs only when the
candidate is exactly `-1`. -/
def specDiscoverOffset (h : Handler) (p : Packet) (now : Nat) (rnd : Int) :
    Int :=
  let viaStaticOrReq : Int :=
    match alookup h.staticLeases (lowerString p.chaddr) with
    | some sl =>
      if 0 ≤ canLease h (some sl.addr) p.chaddr now then
        canLease h (some sl.addr) p.chaddr now
      else if effReqIP p ≠ some 0 then canLease h (effReqIP p) p.chaddr now
      else canLease h (some sl.addr) p.chaddr now
    | none =>
      if effReqIP p ≠ some 0 then canLease h (effReqIP p) p.chaddr now else -1
  let cand : Int :=
    match leaseHW h p.chaddr with
    | some l => if leaseExpiredB l now then viaStaticOrReq else l.num
    | none => viaStaticOrReq
  if cand = -1 then findLease h now rnd else cand

instance leB_decidable : DecidableRel leB := by
  intro a b
  unfold leB
  infer_instance

/-- Client aa:bb:cc:00:00:01 holds a permanent lease at offset 4 of the
pool starting at 10.0.0.10 (= 167772170). -/
def c1Lease : Lease :=
  { num := 4
    addr := 167772174
    hardwareAddr := "aa:bb:cc:00:00:01"
    hostname := ""
    hostnameOverride := ""
    expiry := 0
    lastACK := 1 }

/-- Handler for the DISCOVER ordering counterexample. -/
def c1Handler : Handler :=
  { serverIP := 167772161
    start := 167772170
    leaseRange := 5
    leasePeriod := 1200000000000
    staticLeases := []
    reservedOffsets := []
    leasesHW := [("aa:bb:cc:00:00:01", 4)]
    leasesIP := [(4, c1Lease)]
    leasesCb := false }

/-- DISCOVER from that client requesting 10.0.0.12 (offset 2). -/
def c1Packet : Packet :=
  { ciaddr := 0
    chaddr := "aa:bb:cc:00:00:01"
    optReqIP := some (some 167772172)
    optServerId := none
    optHostname := "" }

/-- Handler built by `NewHandler` with start 10.0.0.10, range 5 and a
static lease binding aa:bb:cc:00:00:02 to 10.0.0.12 (= 167772172). -/
def c3Handler : Handler :=
  newHandler 167772161 167772170 5 1200000000000
    [{ addr := 167772172, hardwareAddr := "aa:bb:cc:00:00:02", hostname := "" }]

/-- Handler with an empty lease database for the SetHostname claim. -/
def c5Handler : Handler :=
  newHandler 167772161 167772170 5 1200000000000 []

/-- Client aa:bb:cc:00:00:06 holds a lease at offset 0, expiry 5000. -/
def c6Lease : Lease :=
  { num := 0
    addr := 167772170
    hardwareAddr := "aa:bb:cc:00:00:06"
    hostname := ""
    hostnameOverride := ""
    expiry := 5000
    lastACK := 1 }

/-- Handler for the DECLINE clock claim. -/
def c6Handler : Handler :=
  { serverIP := 167772161
    start := 167772170
    leaseRange := 5
    leasePeriod := 100
    staticLeases := []
    reservedOffsets := []
    leasesHW := [("aa:bb:cc:00:00:06", 0)]
    leasesIP := [(0, c6Lease)]
    leasesCb := false }

/-- DECLINE from the lease's owner. -/
def c6Packet : Packet :=
  { ciaddr := 0
    chaddr := "aa:bb:cc:00:00:06"
    optReqIP := none
    optServerId := none
    optHostname := "" }

/-- Handler with one active lease for the wrong-server claim's witness. -/
def c7Handler : Handler :=
  { serverIP := 167772161
    start := 167772170
    leaseRange := 5
    leasePeriod := 100
    staticLeases := []
    reservedOffsets := []
    leasesHW := [("aa:bb:cc:00:00:07", 1)]
    leasesIP := [(1,
      { num := 1
        addr := 167772171
        hardwareAddr := "aa:bb:cc:00:00:07"
        hostname := ""
        hostnameOverride := ""
        expiry := 5000
        lastACK := 1 })]
    leasesCb := true }

/-- REQUEST carrying ServerIdentifier 192.0.2.1 (= 3221356545). -/
def c7Packet : Packet :=
  { ciaddr := 0
    chaddr := "aa:bb:cc:00:00:07"
    optReqIP := some (some 167772171)
    optServerId := some (some 3221356545)
    optHostname := "" }

/-- Empty handler for the lease-invariant claim's witness. -/
def c2Handler : Handler :=
  newHandler 167772161 167772170 5 1200000000000 []

/-- Client aa:bb:cc:00:00:03 holds an expired lease (expiry 50) at
offset 3. -/
def c4LeaseX : Lease :=
  { num := 3
    addr := 167772173
    hardwareAddr := "aa:bb:cc:00:00:03"
    hostname := ""
    hostnameOverride := ""
    expiry := 50
    lastACK := 10 }

/-- Handler for the index-agreement claim. -/
def c4Handler : Handler :=
  { serverIP := 167772161
    start := 167772170
    leaseRange := 5
    leasePeriod := 100
    staticLeases := []
    reservedOffsets := []
    leasesHW := [("aa:bb:cc:00:00:03", 3)]
    leasesIP := [(3, c4LeaseX)]
    leasesCb := false }

/-- REQUEST from client aa:bb:cc:00:00:04 for 10.0.0.13 (offset 3),
taking over the expired lease. -/
def c4Packet : Packet :=
  { ciaddr := 0
    chaddr := "aa:bb:cc:00:00:04"
    optReqIP := some (some 167772173)
    optServerId := none
    optHostname := "" }

/-- The state after the takeover REQUEST/ACK, at injected time 2000. -/
def c4After : Handler :=
  (serveDHCP [] c4Handler c4Packet .request 2000 0 0).state

/-- The lease stored for the new owner by that REQUEST. -/
def c4LeaseY : Lease :=
  { num := 3
    addr := 167772173
    hardwareAddr := "aa:bb:cc:00:00:04"
    hostname := ""
    hostnameOverride := ""
    expiry := 2100
    lastACK := 2000 }

/-- Client aa:bb:cc:00:00:09 holds a valid lease at offset 0. -/
def c9Lease : Lease :=
  { num := 0
    addr := 167772170
    hardwareAddr := "aa:bb:cc:00:00:09"
    hostname := "laptop"
    hostnameOverride := ""
    expiry := 5000
    lastACK := 1 }

/-- Handler with a registered observer for the snapshot claim. -/
def c9Handler : Handler :=
  { serverIP := 167772161
    start := 167772170
    leaseRange := 5
    leasePeriod := 100
    staticLeases := []
    reservedOffsets := []
    leasesHW := [("aa:bb:cc:00:00:09", 0)]
    leasesIP := [(0, c9Lease)]
    leasesCb := true }

/-- DECLINE from the lease's owner. -/
def c9Packet : Packet :=
  { ciaddr := 0
    chaddr := "aa:bb:cc:00:00:09"
    optReqIP := none
    optServerId := none
    optHostname := "" }

/-- Empty handler with a registered observer, for the REQUEST part of the
snapshot claim's witness. -/
def c9ReqHandler : Handler :=
  { serverIP := 167772161
    start := 167772170
    leaseRange := 5
    leasePeriod := 100
    staticLeases := []
    reservedOffsets := []
    leasesHW := []
    leasesIP := []
    leasesCb := true }

/-- REQUEST for 10.0.0.11 (offset 1) from a fresh client. -/
def c9ReqPacket : Packet :=
  { ciaddr := 0
    chaddr := "aa:bb:cc:00:00:0b"
    optReqIP := some (some 167772171)
    optServerId := none
    optHostname := "" }

/-- The lease stored by the witness's successful SetHostname. -/
def c9HostLease : Lease :=
  { num := 0
    addr := 167772170
    hardwareAddr := "aa:bb:cc:00:00:09"
    hostname := "pc"
    hostnameOverride := "pc"
    expiry := 5000
    lastACK := 1 }

/-- The handler state after the witness's successful SetHostname. -/
def c9HostAfter : Handler :=
  { serverIP := 167772161
    start := 167772170
    leaseRange := 5
    leasePeriod := 100
    staticLeases := []
    reservedOffsets := []
    leasesHW := [("aa:bb:cc:00:00:09", 0)]
    leasesIP := [(0, c9HostLease)]
    leasesCb := true }

/-- The single snapshot published by that SetHostname. -/
def c9HostNotifs : List (List Lease × Lease) := [([c9HostLease], c9HostLease)]

/-- Client aa:bb:cc:00:00:0a holds a valid lease at offset 1. -/
def c10LeaseZ : Lease :=
  { num := 1
    addr := 167772171
    hardwareAddr := "aa:bb:cc:00:00:0a"
    hostname := ""
    hostnameOverride := ""
    expiry := 5000
    lastACK := 1 }

/-- Handler for the leaseHW-safety claim's witness. -/
def c10Handler : Handler :=
  { serverIP := 167772161
    start := 167772170
    leaseRange := 5
    leasePeriod := 100
    staticLeases := []
    reservedOffsets := []
    leasesHW := [("aa:bb:cc:00:00:0a", 1)]
    leasesIP := [(1, c10LeaseZ)]
    leasesCb := false }

/-- REQUEST for 10.0.0.13 (offset 3) from a different client. -/
def c10Packet : Packet :=
  { ciaddr := 0
    chaddr := "aa:bb:cc:00:00:0b"
    optReqIP := some (some 167772173)
    optServerId := none
    optHostname := "" }

/-- A sorted two-entry vendor prefix table. -/
def c8Table : List (List Nat) := [[0, 23, 171], [0, 25, 29]]

/-- Handler for the vendor-period claim's witness. -/
def c8Handler : Handler :=
  newHandler 167772161 167772170 5 1200000000000 []

/-- DISCOVER from a MAC whose OUI 00:17:ab is in the table. -/
def c8Packet : Packet :=
  { ciaddr := 0
    chaddr := "00:17:ab:00:00:01"
    optReqIP := none
    optServerId := none
    optHostname := "" }

theorem alookup_nil {κ α : Type} [DecidableEq κ] (k : κ) :
    alookup ([] : List (κ × α)) k = none := rfl

theorem alookup_cons {κ α : Type} [DecidableEq κ] (e : κ × α)
    (m : List (κ × α)) (k : κ) :
    alookup (e :: m) k = if e.1 = k then some e.2 else alookup m k := rfl

theorem alookup_adelete {κ α : Type} [DecidableEq κ] (m : List (κ × α))
    (k k' : κ) :
    alookup (adelete m k) k' = if k = k' then none else alookup m k' := by
  induction m with
  | nil => simp [adelete, alookup]
  | cons e rest ih =>
    by_cases h1 : e.1 = k
    · have hdel : adelete (e :: rest) k = adelete rest k := by
        simp [adelete, List.filter_cons, h1]
      rw [hdel, ih, alookup_cons]
      by_cases h2 : k = k'
      · simp [h2]
      · have h3 : ¬ e.1 = k' := by rw [h1]; exact h2
        simp [h2, h3]
    · have hdel : adelete (e :: rest) k = e :: adelete rest k := by
        simp [adelete, List.filter_cons, h1]
      rw [hdel, alookup_cons, ih, alookup_cons]
      by_cases h2 : e.1 = k'
      · by_cases h4 : k = k'
        · exact absurd (h2.trans h4.symm) h1
        · simp [h2, h4]
      · simp [h2]

theorem alookup_ainsert {κ α : Type} [DecidableEq κ] (m : List (κ × α))
    (k k' : κ) (v : α) :
    alookup (ainsert m k v) k' = if k = k' then some v else alookup m k' := by
  by_cases h : k = k' <;> simp [ainsert, alookup, h, alookup_adelete]

theorem leaseHW_char (h : Handler) (hw : String) (l : Lease) :
    leaseHW h hw = some l ↔
      ∃ n, alookup h.leasesHW hw = some n ∧ alookup h.leasesIP n = some l ∧
        l.hardwareAddr = hw := by
  unfold leaseHW
  cases hHW : alookup h.leasesHW hw with
  | none => simp
  | some num =>
    dsimp only
    cases hIP : alookup h.leasesIP num with
    | none =>
      dsimp only
      simp [hIP]
    | some l0 =>
      dsimp only
      by_cases hEq : l0.hardwareAddr = hw
      · rw [if_pos hEq]
        constructor
        · intro h'
          cases h'
          exact ⟨num, rfl, hIP, hEq⟩
        · rintro ⟨n, hn, hl, _⟩
          cases hn
          rw [hIP] at hl
          cases hl
          rfl
      · rw [if_neg hEq]
        constructor
        · rintro ⟨⟩
        · rintro ⟨n, hn, hl, hhw⟩
          cases hn
          rw [hIP] at hl
          cases hl
          exact absurd hhw hEq

theorem canLease_facts (h : Handler) (reqIP : GoIP) (hw : String) (now : Nat)
    (hne : canLease h reqIP hw now ≠ -1) :
    ∃ v, reqIP = some v ∧ v ≠ 0 ∧
      canLease h reqIP hw now = (v : Int) - (h.start : Int) ∧
      0 ≤ (v : Int) - (h.start : Int) ∧
      (alookup h.leasesIP ((v : Int) - (h.start : Int)) = none →
        (v : Int) - (h.start : Int) < h.leaseRange) ∧
      (∀ l, alookup h.leasesIP ((v : Int) - (h.start : Int)) = some l →
        l.hardwareAddr = hw ∨ (v : Int) - (h.start : Int) < h.leaseRange) := by
  cases reqIP with
  | none => exact absurd rfl hne
  | some v =>
    refine ⟨v, rfl, ?_⟩
    have hnum : ipRange h.start v - 1 = (v : Int) - (h.start : Int) := by
      unfold ipRange; ring
    unfold canLease at hne ⊢
    dsimp only at hne ⊢
    rw [hnum] at hne ⊢
    by_cases hv0 : v = 0
    · simp [hv0] at hne
    rw [if_neg hv0] at hne ⊢
    refine ⟨hv0, ?_⟩
    by_cases hneg : (v : Int) - (h.start : Int) < 0
    · simp [hneg] at hne
    rw [if_neg hneg] at hne ⊢
    refine ⟨?_, not_lt.mp hneg, ?_, ?_⟩
    · cases hIP : alookup h.leasesIP ((v : Int) - (h.start : Int)) with
      | none =>
        rw [hIP] at hne
        dsimp only at hne ⊢
        by_cases hrange : h.leaseRange ≤ (v : Int) - (h.start : Int)
        · simp [hrange] at hne
        · simp [hrange]
      | some l =>
        rw [hIP] at hne
        dsimp only at hne ⊢
        by_cases hhw : l.hardwareAddr = hw
        · simp [hhw]
        · rw [if_neg hhw] at hne ⊢
          by_cases hrange : h.leaseRange ≤ (v : Int) - (h.start : Int)
          · simp [hrange] at hne
          · rw [if_neg hrange] at hne ⊢
            by_cases hexp : leaseExpiredB l now = true
            · simp [hexp]
            · simp [hexp] at hne
    · intro hnone
      rw [hnone] at hne
      dsimp only at hne
      by_cases hrange : h.leaseRange ≤ (v : Int) - (h.start : Int)
      · simp [hrange] at hne
      · exact not_le.mp hrange
    · intro l hl
      rw [hl] at hne
      dsimp only at hne
      by_cases hhw : l.hardwareAddr = hw
      · exact Or.inl hhw
      · rw [if_neg hhw] at hne
        by_cases hrange : h.leaseRange ≤ (v : Int) - (h.start : Int)
        · simp [hrange] at hne
        · exact Or.inr (not_le.mp hrange)

theorem requestAck_shape (table : List (List Nat)) (h : Handler) (p : Packet)
    (now : Nat) (n : Int) :
    ∃ l1 : Lease,
      (requestAck table h p now n).state =
        { h with
          leasesIP := ainsert
            (match leaseHW h p.chaddr with
             | some l => adelete h.leasesIP l.num
             | none => h.leasesIP) n l1
          leasesHW := ainsert h.leasesHW l1.hardwareAddr n } ∧
      l1.num = n ∧ l1.addr = goIPVal (effReqIP p) ∧
      l1.hardwareAddr = p.chaddr ∧
      (requestAck table h p now n).notifs =
        snapshotNotifs (requestAck table h p now n).state l1 ∧
      (requestAck table h p now n).reply = some
        { rtype := .ack, serverIP := h.serverIP, yiaddr := effReqIP p,
          duration := leasePeriodForDevice table h p.chaddr } := by
  unfold requestAck
  dsimp only
  cases hprev : leaseHW h p.chaddr with
  | none =>
    dsimp only
    exact ⟨_, rfl, rfl, rfl, rfl, rfl, rfl⟩
  | some l =>
    dsimp only
    refine ⟨_, rfl, ?_, ?_, ?_, rfl, rfl⟩ <;>
      (by_cases he : l.expiry = 0 <;> by_cases ho : l.hostnameOverride ≠ "" <;>
        simp [he, ho])

theorem canLease_lt_range (h : Handler) (hS : StrongInv h) (reqIP : GoIP)
    (hw : String) (now : Nat) (hne : canLease h reqIP hw now ≠ -1) :
    canLease h reqIP hw now < h.leaseRange := by
  obtain ⟨v, heff, hv0, hval, hpos, hnone, hsome⟩ :=
    canLease_facts h reqIP hw now hne
  rw [hval]
  cases hIP : alookup h.leasesIP ((v : Int) - (h.start : Int)) with
  | none => exact hnone hIP
  | some l =>
    rcases hsome l hIP with hhw | hlt
    · obtain ⟨hk, _, hlt', _⟩ := hS _ _ hIP
      rw [hk]
      exact hlt'
    · exact hlt

theorem alookup_matchdel (h : Handler) (p : Packet) (k : Int) (l' : Lease)
    (hk : alookup
      (match leaseHW h p.chaddr with
       | some l => adelete h.leasesIP l.num
       | none => h.leasesIP) k = some l') :
    alookup h.leasesIP k = some l' ∧
      (∀ l0, leaseHW h p.chaddr = some l0 → l0.num ≠ k) := by
  cases hprev : leaseHW h p.chaddr with
  | none =>
    rw [hprev] at hk
    dsimp only at hk
    refine ⟨hk, ?_⟩
    intro l0 hl0
    cases hl0
  | some l0 =>
    rw [hprev] at hk
    dsimp only at hk
    rw [alookup_adelete] at hk
    by_cases hdel : l0.num = k
    · rw [if_pos hdel] at hk
      cases hk
    · rw [if_neg hdel] at hk
      refine ⟨hk, ?_⟩
      intro l0' hl0'
      cases hl0'
      exact hdel

theorem fullInv_requestAck (table : List (List Nat)) (h : Handler)
    (p : Packet) (now : Nat) (hst : h.start < 4294967296) (hp : PacketWF p)
    (hinv : FullInv h)
    (hne : canLease h (effReqIP p) p.chaddr now ≠ -1) :
    FullInv (requestAck table h p now
      (canLease h (effReqIP p) p.chaddr now)).state := by
  obtain ⟨v, heff, hv0, hval, hpos, hnone_lt, hsome_lt⟩ :=
    canLease_facts h (effReqIP p) p.chaddr now hne
  have hrange := canLease_lt_range h hinv.1 (effReqIP p) p.chaddr now hne
  obtain ⟨l1, hstate, h1num, h1addr, h1hw, hnotifs, hreply⟩ :=
    requestAck_shape table h p now (canLease h (effReqIP p) p.chaddr now)
  rw [hstate]
  have hv32 : v < 4294967296 := by
    have hwf := hp
    unfold PacketWF at hwf
    rw [heff] at hwf
    exact hwf
  constructor
  · intro k l' hk
    dsimp only at hk ⊢
    rw [alookup_ainsert] at hk
    by_cases hkn : canLease h (effReqIP p) p.chaddr now = k
    · rw [if_pos hkn] at hk
      cases hk
      refine ⟨by rw [h1num, hkn], ?_, ?_, ?_⟩
      · rw [h1num, hval]
        exact hpos
      · rw [h1num]
        exact hrange
      · rw [h1addr, h1num, hval, heff]
        show v = ipAdd h.start ((v : Int) - (h.start : Int))
        unfold ipAdd
        omega
    · rw [if_neg hkn] at hk
      obtain ⟨hk', _⟩ := alookup_matchdel h p k l' hk
      exact hinv.1 k l' hk'
  · intro k l' hk
    dsimp only at hk ⊢
    rw [alookup_ainsert] at hk
    rw [alookup_ainsert]
    by_cases hkn : canLease h (effReqIP p) p.chaddr now = k
    · rw [if_pos hkn] at hk
      cases hk
      rw [if_pos rfl, hkn]
    · rw [if_neg hkn] at hk
      obtain ⟨hk', hnodel⟩ := alookup_matchdel h p k l' hk
      have hrev := hinv.2 k l' hk'
      by_cases hc : l1.hardwareAddr = l'.hardwareAddr
      · exfalso
        have hcp : l'.hardwareAddr = p.chaddr := by rw [← hc, h1hw]
        rw [hcp] at hrev
        cases hprev : leaseHW h p.chaddr with
        | none =>
          have hsome : leaseHW h p.chaddr = some l' :=
            (leaseHW_char h p.chaddr l').mpr ⟨k, hrev, hk', hcp⟩
          rw [hprev] at hsome
          cases hsome
        | some l0 =>
          obtain ⟨n0, hn0, hip0, hl0hw⟩ := (leaseHW_char h p.chaddr l0).mp hprev
          rw [hrev] at hn0
          cases hn0
          have hkeq := (hinv.1 k l0 hip0).1
          exact hnodel l0 hprev hkeq.symm
      · rw [if_neg hc]
        exact hrev

theorem fullInv_requestBody (table : List (List Nat)) (h : Handler)
    (p : Packet) (now : Nat) (hst : h.start < 4294967296) (hp : PacketWF p)
    (hinv : FullInv h) :
    FullInv (serveRequestBody table h p now).state := by
  unfold serveRequestBody
  by_cases hne : canLease h (effReqIP p) p.chaddr now = -1
  · rw [if_pos hne]
    exact hinv
  · rw [if_neg hne]
    exact fullInv_requestAck table h p now hst hp hinv hne

theorem fullInv_step (table : List (List Nat)) (h : Handler) (p : Packet)
    (m : MsgType) (now wallNow : Nat) (rnd : Int)
    (hst : h.start < 4294967296) (hp : PacketWF p) (hinv : FullInv h) :
    FullInv (serveDHCP table h p m now wallNow rnd).state := by
  cases m
  case discover => exact hinv
  case other => exact hinv
  case request =>
    show FullInv (serveRequest table h p now).state
    unfold serveRequest
    by_cases hws : wrongServerB h p = true
    · rw [if_pos hws]
      exact hinv
    · rw [if_neg hws]
      exact fullInv_requestBody table h p now hst hp hinv
  case decline =>
    show FullInv (serveDecline h p wallNow).state
    unfold serveDecline
    cases hHW : alookup h.leasesHW p.chaddr with
    | none => exact hinv
    | some num =>
      dsimp only
      cases hIP : alookup h.leasesIP num with
      | none => exact hinv
      | some l =>
        dsimp only
        by_cases hc : l.hardwareAddr ≠ p.chaddr
        · rw [if_pos hc]
          exact hinv
        · rw [if_neg hc]
          constructor
          · intro k l' hk
            dsimp only at hk ⊢
            rw [alookup_ainsert] at hk
            by_cases hkn : num = k
            · rw [if_pos hkn] at hk
              cases hk
              obtain ⟨h1, h2, h3, h4⟩ := hinv.1 num l hIP
              exact ⟨by rw [← hkn]; exact h1, h2, h3, h4⟩
            · rw [if_neg hkn] at hk
              exact hinv.1 k l' hk
          · intro k l' hk
            dsimp only at hk ⊢
            rw [alookup_ainsert] at hk
            by_cases hkn : num = k
            · rw [if_pos hkn] at hk
              cases hk
              dsimp only
              rw [← hkn]
              exact hinv.2 num l hIP
            · rw [if_neg hkn] at hk
              exact hinv.2 k l' hk

theorem serveDecline_shape (h : Handler) (p : Packet) (wallNow : Nat) :
    serveDecline h p wallNow = { state := h, reply := none, notifs := [] } ∨
    ∃ num l, alookup h.leasesHW p.chaddr = some num ∧
      alookup h.leasesIP num = some l ∧ l.hardwareAddr = p.chaddr ∧
      serveDecline h p wallNow =
        { state := { h with
            leasesIP := ainsert h.leasesIP num { l with expiry := wallNow } }
          reply := none
          notifs := [] } := by
  unfold serveDecline
  cases hHW : alookup h.leasesHW p.chaddr with
  | none => exact Or.inl rfl
  | some num =>
    dsimp only
    cases hIP : alookup h.leasesIP num with
    | none => exact Or.inl rfl
    | some l =>
      dsimp only
      by_cases hc : l.hardwareAddr ≠ p.chaddr
      · rw [if_pos hc]
        exact Or.inl rfl
      · rw [if_neg hc]
        exact Or.inr ⟨num, l, rfl, hIP, not_not.mp hc, rfl⟩

theorem serveDHCP_config (table : List (List Nat)) (h : Handler) (p : Packet)
    (m : MsgType) (now wallNow : Nat) (rnd : Int) :
    (serveDHCP table h p m now wallNow rnd).state.start = h.start ∧
    (serveDHCP table h p m now wallNow rnd).state.leaseRange = h.leaseRange := by
  cases m
  case discover => exact ⟨rfl, rfl⟩
  case other => exact ⟨rfl, rfl⟩
  case request =>
    show (serveRequest table h p now).state.start = h.start ∧
      (serveRequest table h p now).state.leaseRange = h.leaseRange
    obtain ⟨l1, hstate, _⟩ :=
      requestAck_shape table h p now (canLease h (effReqIP p) p.chaddr now)
    unfold serveRequest serveRequestBody
    by_cases hws : wrongServerB h p = true
    · rw [if_pos hws]
      exact ⟨rfl, rfl⟩
    · rw [if_neg hws]
      by_cases hne : canLease h (effReqIP p) p.chaddr now = -1
      · rw [if_pos hne]
        exact ⟨rfl, rfl⟩
      · rw [if_neg hne, hstate]
        exact ⟨rfl, rfl⟩
  case decline =>
    show (serveDecline h p wallNow).state.start = h.start ∧
      (serveDecline h p wallNow).state.leaseRange = h.leaseRange
    rcases serveDecline_shape h p wallNow with hd | ⟨num, l, _, _, _, hd⟩ <;>
      rw [hd] <;> exact ⟨rfl, rfl⟩

theorem reachable_start_lt (table : List (List Nat)) (h : Handler)
    (hr : Reachable table h) : h.start < 4294967296 := by
  induction hr with
  | restore h hwf hinv => exact hwf
  | step h p m now wallNow rnd hp hr ih =>
    rw [(serveDHCP_config table h p m now wallNow rnd).1]
    exact ih

theorem reachable_fullInv (table : List (List Nat)) (h : Handler)
    (hr : Reachable table h) : FullInv h := by
  induction hr with
  | restore h hwf hinv => exact hinv
  | step h p m now wallNow rnd hp hr ih =>
    exact fullInv_step table h p m now wallNow rnd
      (reachable_start_lt table h hr) hp ih

theorem bytesCompare_eq_iff : ∀ a b : List Nat,
    bytesCompare a b = Ordering.eq ↔ a = b := by
  intro a
  induction a with
  | nil =>
    intro b
    cases b <;> simp [bytesCompare]
  | cons x xs ih =>
    intro b
    cases b with
    | nil => simp [bytesCompare]
    | cons y ys =>
      unfold bytesCompare
      by_cases h1 : x < y
      · rw [if_pos h1]
        constructor
        · intro hc
          exact Ordering.noConfusion hc
        · intro hc
          injection hc with hxy _
          omega
      · rw [if_neg h1]
        by_cases h2 : y < x
        · rw [if_pos h2]
          constructor
          · intro hc
            exact Ordering.noConfusion hc
          · intro hc
            injection hc with hxy _
            omega
        · rw [if_neg h2]
          have hxy : x = y := by omega
          subst hxy
          rw [ih ys]
          simp

theorem bytesCompare_swap : ∀ a b : List Nat,
    bytesCompare b a = (bytesCompare a b).swap := by
  intro a
  induction a with
  | nil =>
    intro b
    cases b <;> simp [bytesCompare, Ordering.swap]
  | cons x xs ih =>
    intro b
    cases b with
    | nil => simp [bytesCompare, Ordering.swap]
    | cons y ys =>
      unfold bytesCompare
      by_cases h1 : x < y
      · rw [if_pos h1, if_neg (by omega : ¬ y < x), if_pos h1]
        rfl
      · rw [if_neg h1]
        by_cases h2 : y < x
        · rw [if_pos h2, if_neg h1, if_pos h2]
          rfl
        · rw [if_neg h2, if_neg h2, if_neg h1]
          exact ih ys

theorem bytesCompare_le_trans : ∀ a b c : List Nat,
    bytesCompare a b ≠ Ordering.gt → bytesCompare b c ≠ Ordering.gt →
    bytesCompare a c ≠ Ordering.gt := by
  intro a
  induction a with
  | nil =>
    intro b c _ _
    cases c <;> simp [bytesCompare]
  | cons x xs ih =>
    intro b c h1 h2
    cases b with
    | nil => simp [bytesCompare] at h1
    | cons y ys =>
      cases c with
      | nil => simp [bytesCompare] at h2
      | cons z zs =>
        unfold bytesCompare at h1 h2 ⊢
        by_cases hxy : x < y
        · by_cases hyz : y < z
          · rw [if_pos (by omega : x < z)]
            exact fun hc => Ordering.noConfusion hc
          · rw [if_neg hyz] at h2
            by_cases hzy : z < y
            · rw [if_pos hzy] at h2
              exact absurd rfl h2
            · rw [if_pos (by omega : x < z)]
              exact fun hc => Ordering.noConfusion hc
        · rw [if_neg hxy] at h1
          by_cases hyx : y < x
          · rw [if_pos hyx] at h1
            exact absurd rfl h1
          · rw [if_neg hyx] at h1
            have hxy' : x = y := by omega
            subst hxy'
            by_cases hxz : x < z
            · rw [if_pos hxz]
              exact fun hc => Ordering.noConfusion hc
            · rw [if_neg hxz] at h2 ⊢
              by_cases hzx : z < x
              · rw [if_pos hzx] at h2
                exact absurd rfl h2
              · rw [if_neg hzx] at h2 ⊢
                exact ih ys zs h1 h2

theorem bytesCompare_antisymm (a b : List Nat)
    (h1 : bytesCompare a b ≠ Ordering.gt)
    (h2 : bytesCompare b a ≠ Ordering.gt) : a = b := by
  rw [← bytesCompare_eq_iff a b]
  cases hc : bytesCompare a b with
  | eq => rfl
  | gt => exact absurd hc h1
  | lt =>
    exfalso
    apply h2
    rw [bytesCompare_swap a b, hc]
    rfl

theorem bytesCompare_not_lt_iff (a b : List Nat) :
    bytesCompare a b ≠ Ordering.lt ↔ bytesCompare b a ≠ Ordering.gt := by
  rw [bytesCompare_swap a b]
  cases bytesCompare a b <;> simp [Ordering.swap]

theorem goSearchAux_spec (f : Nat → Bool) :
    ∀ (fuel i j : Nat), j - i ≤ fuel → i ≤ j →
      (∀ a b, a ≤ b → b < j → f a = true → f b = true) →
      i ≤ goSearchAux f fuel i j ∧ goSearchAux f fuel i j ≤ j ∧
      (∀ k, i ≤ k → k < goSearchAux f fuel i j → f k = false) ∧
      (goSearchAux f fuel i j < j → f (goSearchAux f fuel i j) = true) := by
  intro fuel
  induction fuel with
  | zero =>
    intro i j hfuel hij mono
    unfold goSearchAux
    refine ⟨le_refl i, hij, ?_, ?_⟩
    · intro k hk1 hk2
      omega
    · intro hlt
      omega
  | succ fuel ih =>
    intro i j hfuel hij mono
    unfold goSearchAux
    by_cases hij' : i < j
    · rw [if_pos hij']
      dsimp only
      by_cases hf : f ((i + j) / 2) = true
      · rw [if_pos hf]
        have mono' : ∀ a b, a ≤ b → b < (i + j) / 2 → f a = true → f b = true :=
          fun a b hab hbm => mono a b hab (by omega)
        obtain ⟨h1, h2, h3, h4⟩ := ih i ((i + j) / 2) (by omega) (by omega) mono'
        refine ⟨h1, by omega, h3, ?_⟩
        intro hlt
        by_cases hrm : goSearchAux f fuel i ((i + j) / 2) < (i + j) / 2
        · exact h4 hrm
        · have heq : goSearchAux f fuel i ((i + j) / 2) = (i + j) / 2 := by omega
          rw [heq]
          exact hf
      · rw [if_neg hf]
        have hfm : f ((i + j) / 2) = false := by
          cases hfm' : f ((i + j) / 2)
          · rfl
          · exact absurd hfm' hf
        obtain ⟨h1, h2, h3, h4⟩ := ih ((i + j) / 2 + 1) j (by omega) (by omega) mono
        refine ⟨by omega, h2, ?_, h4⟩
        intro k hk1 hk2
        by_cases hkm : (i + j) / 2 + 1 ≤ k
        · exact h3 k hkm hk2
        · cases hfk : f k with
          | false => rfl
          | true =>
            have := mono k ((i + j) / 2) (by omega) (by omega) hfk
            rw [hfm] at this
            exact Bool.noConfusion this
    · rw [if_neg hij']
      refine ⟨le_refl i, hij, ?_, ?_⟩
      · intro k hk1 hk2
        omega
      · intro hlt
        exact absurd hlt (by omega)

theorem vendorSearch_mem (table : List (List Nat))
    (hsorted : List.Pairwise leB table) (oui : List Nat) :
    (goSearch (fun j => decide (bytesCompare (table.getD j []) oui ≠ Ordering.lt))
        0 table.length < table.length ∧
      table.getD (goSearch
        (fun j => decide (bytesCompare (table.getD j []) oui ≠ Ordering.lt))
        0 table.length) [] = oui)
    ↔ oui ∈ table := by
  have hgetD : ∀ (i : Nat) (hi : i < table.length),
      table.getD i [] = table.get ⟨i, hi⟩ := by
    intro i hi
    simp [List.getD_eq_getElem?_getD, List.getElem?_eq_getElem hi]
  have hle_get : ∀ (a b : Nat) (ha : a < table.length) (hb : b < table.length),
      a ≤ b → leB (table.get ⟨a, ha⟩) (table.get ⟨b, hb⟩) := by
    intro a b ha hb hab
    rcases Nat.lt_or_ge a b with hlt | hge
    · exact List.pairwise_iff_get.mp hsorted ⟨a, ha⟩ ⟨b, hb⟩ hlt
    · have hab' : a = b := by omega
      subst hab'
      intro hc
      rw [(bytesCompare_eq_iff _ _).mpr rfl] at hc
      exact Ordering.noConfusion hc
  have mono : ∀ a b, a ≤ b → b < table.length →
      (fun j => decide (bytesCompare (table.getD j []) oui ≠ Ordering.lt)) a = true →
      (fun j => decide (bytesCompare (table.getD j []) oui ≠ Ordering.lt)) b = true := by
    intro a b hab hbn hfa
    have ha := lt_of_le_of_lt hab hbn
    simp only [decide_eq_true_eq] at hfa ⊢
    rw [hgetD a ha] at hfa
    rw [hgetD b hbn]
    rw [bytesCompare_not_lt_iff] at hfa ⊢
    exact bytesCompare_le_trans _ _ _ hfa (hle_get a b ha hbn hab)
  obtain ⟨hr0, hrn, hbelow, hfound⟩ :=
    goSearchAux_spec
      (fun j => decide (bytesCompare (table.getD j []) oui ≠ Ordering.lt))
      (table.length - 0) 0 table.length (le_refl _) (Nat.zero_le _) mono
  unfold goSearch
  constructor
  · rintro ⟨hlt, heq⟩
    rw [← heq, hgetD _ hlt]
    exact table.get_mem _ hlt
  · intro hmem
    obtain ⟨⟨k, hk⟩, hgk⟩ := List.mem_iff_get.mp hmem
    have hfk : decide (bytesCompare (table.getD k []) oui ≠ Ordering.lt) = true := by
      simp only [decide_eq_true_eq]
      rw [hgetD k hk, hgk, (bytesCompare_eq_iff _ _).mpr rfl]
      intro hc
      exact Ordering.noConfusion hc
    have hrk : goSearchAux
        (fun j => decide (bytesCompare (table.getD j []) oui ≠ Ordering.lt))
        (table.length - 0) 0 table.length ≤ k := by
      by_contra hgt
      push_neg at hgt
      have hfalse := hbelow k (Nat.zero_le k) hgt
      rw [hfk] at hfalse
      exact Bool.noConfusion hfalse
    have hrlt := lt_of_le_of_lt hrk hk
    refine ⟨hrlt, ?_⟩
    have hfr := hfound hrlt
    simp only [decide_eq_true_eq] at hfr
    rw [hgetD _ hrlt] at hfr ⊢
    have h1 : leB (table.get ⟨_, hrlt⟩) oui := by
      have hle := hle_get _ k hrlt hk hrk
      rw [hgk] at hle
      exact hle
    rw [bytesCompare_not_lt_iff] at hfr
    exact bytesCompare_antisymm _ _ h1 hfr

theorem leasePeriodForDevice_eq (table : List (List Nat))
    (hsorted : List.Pairwise leB table) (h : Handler) (hw : String) :
    leasePeriodForDevice table h hw =
      if ouiInTable table hw = true then hourDuration else h.leasePeriod := by
  unfold leasePeriodForDevice ouiInTable
  cases hdec : hexDecode (hw.data.filter (fun c => decide (c ≠ ':'))) with
  | none => simp
  | some bytes =>
    dsimp only
    by_cases hlen : bytes.length = 6
    · rw [if_neg (by simp [hlen])]
      have hmem := vendorSearch_mem table hsorted (bytes.take 3)
      by_cases hc : (bytes.take 3) ∈ table
      · rw [if_pos (hmem.mpr hc)]
        simp [hlen, hc]
      · rw [if_neg (fun hff => hc (hmem.mp hff))]
        simp [hlen, hc]
    · rw [if_pos hlen]
      simp [hlen]

theorem discoverReply_eq_spec (table : List (List Nat)) (h : Handler)
    (p : Packet) (now : Nat) (rnd : Int) :
    discoverReply table h p now rnd =
      if specDiscoverOffset h p now rnd = -1 then none
      else some
        { rtype := .offer
          serverIP := h.serverIP
          yiaddr := some (ipAdd h.start (specDiscoverOffset h p now rnd))
          duration := leasePeriodForDevice table h p.chaddr } := by
  unfold discoverReply specDiscoverOffset
  dsimp only
  cases hstat : alookup h.staticLeases (lowerString p.chaddr) with
  | none =>
    dsimp only
    cases hlhw : leaseHW h p.chaddr with
    | none =>
      dsimp only
      by_cases hA : effReqIP p ≠ some 0
      · simp [hA]
      · simp [hA]
    | some l =>
      dsimp only
      by_cases hexp : leaseExpiredB l now = true
      · by_cases hA : effReqIP p ≠ some 0
        · simp [hexp, hA]
        · simp [hexp, hA]
      · simp [hexp]
  | some sl =>
    dsimp only
    cases hlhw : leaseHW h p.chaddr with
    | none =>
      dsimp only
      by_cases hc : canLease h (some sl.addr) p.chaddr now < 0
      · by_cases hA : effReqIP p ≠ some 0
        · simp [hc, hA, not_le.mpr hc]
        · simp [hc, hA, not_le.mpr hc]
      · simp [hc, not_lt.mp hc]
    | some l =>
      dsimp only
      by_cases hexp : leaseExpiredB l now = true
      · by_cases hc : canLease h (some sl.addr) p.chaddr now < 0
        · by_cases hA : effReqIP p ≠ some 0
          · simp [hexp, hc, hA, not_le.mpr hc]
          · simp [hexp, hc, hA, not_le.mpr hc]
        · simp [hexp, hc, not_lt.mp hc]
      · simp [hexp]

theorem discover_offer_duration (table : List (List Nat)) (h : Handler)
    (p : Packet) (now : Nat) (rnd : Int) (r : Reply)
    (hr : discoverReply table h p now rnd = some r) :
    r.duration = leasePeriodForDevice table h p.chaddr := by
  rw [discoverReply_eq_spec] at hr
  by_cases hs : specDiscoverOffset h p now rnd = -1
  · rw [if_pos hs] at hr
    exact Option.noConfusion hr
  · rw [if_neg hs] at hr
    cases hr
    rfl

theorem serveRequest_ack_duration (table : List (List Nat)) (h : Handler)
    (p : Packet) (now : Nat) (r : Reply)
    (hr : (serveRequest table h p now).reply = some r)
    (hack : r.rtype = ReplyType.ack) :
    r.duration = leasePeriodForDevice table h p.chaddr := by
  unfold serveRequest at hr
  by_cases hws : wrongServerB h p = true
  · rw [if_pos hws] at hr
    exact Option.noConfusion hr
  · rw [if_neg hws] at hr
    unfold serveRequestBody at hr
    by_cases hne : canLease h (effReqIP p) p.chaddr now = -1
    · rw [if_pos hne] at hr
      cases hr
      simp at hack
    · rw [if_neg hne] at hr
      obtain ⟨l1, _, _, _, _, _, hreply⟩ := requestAck_shape table h p now
        (canLease h (effReqIP p) p.chaddr now)
      rw [hreply] at hr
      cases hr
      rfl

theorem requestAck_notifs_len (table : List (List Nat)) (h : Handler)
    (p : Packet) (now : Nat) (n : Int) (hcb : h.leasesCb = true) :
    (requestAck table h p now n).notifs.length = 1 := by
  obtain ⟨l1, hstate, _, _, _, hnotifs, _⟩ := requestAck_shape table h p now n
  rw [hnotifs, hstate]
  unfold snapshotNotifs
  dsimp only
  rw [if_pos hcb]
  rfl

theorem setHostname_ok_notifs (h : Handler) (hw name : String) (now : Nat)
    (h' : Handler) (ns : List (List Lease × Lease)) (hcb : h.leasesCb = true)
    (hok : setHostname h hw name now = HostnameResult.ok h' ns) :
    ns.length = 1 := by
  unfold setHostname at hok
  dsimp only at hok
  cases hIP : alookup h.leasesIP ((alookup h.leasesHW hw).getD 0) with
  | none =>
    rw [hIP] at hok
    exact HostnameResult.noConfusion hok
  | some lease =>
    rw [hIP] at hok
    dsimp only at hok
    by_cases hfail : lease.hardwareAddr ≠ hw ∨ leaseExpiredB lease now
    · rw [if_pos hfail] at hok
      exact HostnameResult.noConfusion hok
    · rw [if_neg hfail] at hok
      injection hok with _ hns
      rw [← hns]
      unfold snapshotNotifs
      dsimp only
      rw [if_pos hcb]
      rfl

theorem serveDecline_notifs (h : Handler) (p : Packet) (wallNow : Nat) :
    (serveDecline h p wallNow).notifs = [] := by
  rcases serveDecline_shape h p wallNow with hd | ⟨num, l, _, _, _, hd⟩ <;>
    rw [hd]

theorem alookup_singleton {κ α : Type} [DecidableEq κ] (k0 k : κ) (v w : α)
    (hk : alookup [(k0, v)] k = some w) : k0 = k ∧ w = v := by
  rw [alookup_cons] at hk
  dsimp only at hk
  by_cases h : k0 = k
  · rw [if_pos h] at hk
    injection hk with hv
    exact ⟨h, hv.symm⟩
  · rw [if_neg h, alookup_nil] at hk
    exact Option.noConfusion hk

/-- C1, counterexample: step 2 (requested IP) produces the non-negative
offset 2, yet step 3 (the client's existing non-expired lease at offset 4)
replaces it, and the OFFER's YIAddr is `start_ip + 4`, not
`start_ip + 2` — so the first non-negative result does not win. -/
theorem c1_discover_order_counterexample :
    canLease c1Handler (some 167772172) "aa:bb:cc:00:00:01" 10 = 2 ∧
    (serveDHCP [] c1Handler c1Packet .discover 10 0 0).reply =
      some
        { rtype := .offer
          serverIP := 167772161
          yiaddr := some (ipAdd c1Handler.start 4)
          duration := 1200000000000 } ∧
    ipAdd c1Handler.start 4 ≠ ipAdd c1Handler.start 2 := by
  refine ⟨by decide, by decide, by decide⟩

/-- C1, amended: in ServeDHCP's handling of DISCOVER, a client's existing
non-expired lease takes precedence unconditionally; only when there is
none does the first non-negative result of static `can_lease` and then
requested-IP `can_lease` win; `find_free_offset` runs only when the
candidate is exactly `-1`; the OFFER (when produced) carries
YIAddr = start_ip + candidate, and the state is not mutated. -/
theorem c1_discover_order_amended (table : List (List Nat)) (h : Handler)
    (p : Packet) (now wallNow : Nat) (rnd : Int) :
    serveDHCP table h p .discover now wallNow rnd =
      { state := h
        reply :=
          if specDiscoverOffset h p now rnd = -1 then none
          else some
            { rtype := .offer
              serverIP := h.serverIP
              yiaddr := some (ipAdd h.start (specDiscoverOffset h p now rnd))
              duration := leasePeriodForDevice table h p.chaddr }
        notifs := [] } := by
  show ({ state := h, reply := discoverReply table h p now rnd, notifs := [] } : StepResult) = _
  rw [discoverReply_eq_spec]

/-- C3, the code at the failing input: `NewHandler` reserves
`IPRange(start, 10.0.0.12) = 3`, one more than the pool offset 2 that
`can_lease` computes for 10.0.0.12 (and that the OFFER path uses), and
`find_free_offset` with random probe 2 returns offset 2 — the static
address — on the empty database, for any requesting MAC. -/
theorem c3_reserved_offset_bug :
    c3Handler.reservedOffsets = [3] ∧
    ipRange c3Handler.start 167772172 - 1 = 2 ∧
    canLease c3Handler (some 167772172) "aa:bb:cc:00:00:02" 0 = 2 ∧
    findLease c3Handler 0 2 = 2 ∧
    ipAdd c3Handler.start 2 = 167772172 := by
  refine ⟨by decide, by decide, by decide, by decide, by decide⟩

/-- C5, the code at the failing input: with no lease for the hardware
address (both indices empty), `SetHostname` reads the zero-valued offset 0
from `leases_by_hw`, finds no lease there, and dereferences the nil lease
pointer — a crash, not a descriptive error. -/
theorem c5_sethostname_crash :
    alookup c5Handler.leasesHW "aa:bb:cc:00:00:01" = none ∧
    alookup c5Handler.leasesIP 0 = none ∧
    setHostname c5Handler "aa:bb:cc:00:00:01" "laptop" 0 =
      HostnameResult.crash := by
  refine ⟨by decide, by decide, by decide⟩

/-- C6, the code at the failing input: with the injected clock `time_now`
at 10 and the wall clock `time.Now()` at 1000, DECLINE produces no reply
but sets the lease's expiry to the wall-clock instant 1000 — not to the
injected instant 10 — and the lease is consequently not expired relative
to `time_now` afterwards. -/
theorem c6_decline_wall_clock_bug :
    (serveDHCP [] c6Handler c6Packet .decline 10 1000 0).reply = none ∧
    (alookup (serveDHCP [] c6Handler c6Packet .decline 10 1000 0).state.leasesIP
      0).map Lease.expiry = some 1000 ∧
    (1000 : Nat) ≠ 10 ∧
    (alookup (serveDHCP [] c6Handler c6Packet .decline 10 1000 0).state.leasesIP
      0).map (fun l => leaseExpiredB l 10) = some false := by
  refine ⟨by decide, by decide, by decide, by decide⟩

/-- C7: a REQUEST whose ServerIdentifier option is present and differs
from `server_ip` produces no reply, no notification, and leaves the whole
handler state unchanged. -/
theorem c7_wrong_server_drop (table : List (List Nat)) (h : Handler)
    (p : Packet) (now wallNow : Nat) (rnd : Int) (sid : GoIP)
    (hsid : p.optServerId = some sid) (hne : sid ≠ some h.serverIP) :
    serveDHCP table h p .request now wallNow rnd =
      { state := h, reply := none, notifs := [] } := by
  show serveRequest table h p now = _
  unfold serveRequest
  have hws : wrongServerB h p = true := by
    unfold wrongServerB
    rw [hsid]
    simp [hne]
  rw [if_pos hws]

theorem c7_wrong_server_drop_witness :
    serveDHCP [] c7Handler c7Packet .request 0 0 0 =
      { state := c7Handler, reply := none, notifs := [] } :=
  c7_wrong_server_drop [] c7Handler c7Packet 0 0 0 (some 3221356545) rfl
    (by decide)

theorem c2Handler_fullInv : FullInv c2Handler := by
  constructor <;> intro k l hk <;> exact Option.noConfusion hk

/-- C2: in every state reachable from an invariant-satisfying database
(the empty one of `NewHandler` included) by `serveDHCP` steps with 4-byte
requested addresses, every stored lease satisfies
`0 ≤ num < lease_range` and `addr = start_ip + num` under 4-byte
big-endian arithmetic; moreover the offset `can_lease` computes for any
accepted requested IP is exactly `requested_ip - start_ip`. -/
theorem c2_lease_invariant (table : List (List Nat)) (h : Handler)
    (hr : Reachable table h) :
    (∀ k l, alookup h.leasesIP k = some l →
      0 ≤ l.num ∧ l.num < h.leaseRange ∧ l.addr = ipAdd h.start l.num) ∧
    (∀ (v : Nat) (hw : String) (now : Nat),
      0 ≤ canLease h (some v) hw now →
      canLease h (some v) hw now = (v : Int) - (h.start : Int)) := by
  constructor
  · intro k l hk
    obtain ⟨_, h2, h3, h4⟩ := (reachable_fullInv table h hr).1 k l hk
    exact ⟨h2, h3, h4⟩
  · intro v hw now hpos
    have hne : canLease h (some v) hw now ≠ -1 := by
      intro heq
      rw [heq] at hpos
      omega
    obtain ⟨v', heq, _, hval, _⟩ := canLease_facts h (some v) hw now hne
    injection heq with heq'
    subst heq'
    exact hval

theorem c2_lease_invariant_witness :
    canLease c2Handler (some 167772172) "aa:bb:cc:00:00:01" 0 =
      (167772172 : Int) - (167772170 : Int) :=
  (c2_lease_invariant [] c2Handler
      (Reachable.restore c2Handler (by decide) c2Handler_fullInv)).2
    167772172 "aa:bb:cc:00:00:01" 0 (by decide)

theorem c4Handler_fullInv : FullInv c4Handler := by
  constructor
  · intro k l hk
    obtain ⟨h3, hl⟩ := alookup_singleton 3 k c4LeaseX l hk
    subst hl
    subst h3
    exact ⟨by decide, by decide, by decide, by decide⟩
  · intro k l hk
    obtain ⟨h3, hl⟩ := alookup_singleton 3 k c4LeaseX l hk
    subst hl
    subst h3
    decide

/-- C4, counterexample: after client aa:bb:cc:00:00:04 takes over the
expired lease at offset 3 via REQUEST/ACK, the reachable state still maps
aa:bb:cc:00:00:03 to offset 3 in `leases_by_hw`, while the lease stored at
offset 3 belongs to aa:bb:cc:00:00:04 — the two indices do not agree. -/
theorem c4_index_agreement_counterexample :
    Reachable [] c4After ∧
    alookup c4After.leasesHW "aa:bb:cc:00:00:03" = some 3 ∧
    (alookup c4After.leasesIP 3).map Lease.hardwareAddr =
      some "aa:bb:cc:00:00:04" ∧
    "aa:bb:cc:00:00:04" ≠ "aa:bb:cc:00:00:03" := by
  refine ⟨?_, by decide, by decide, by decide⟩
  exact Reachable.step c4Handler c4Packet .request 2000 0 0
    (by decide : (167772173 : Nat) < 4294967296)
    (Reachable.restore c4Handler (by decide) c4Handler_fullInv)

/-- C4, amended: in every reachable state the agreement holds in the
direction the code maintains — every stored lease is indexed under its own
hardware address: `leases_by_offset[n] = l` implies
`leases_by_hw[l.hardware_addr] = n`.  The converse direction of the claim
fails: `leases_by_hw` may retain a stale entry for a client whose expired
lease was taken over (see the counterexample). -/
theorem c4_index_agreement_amended (table : List (List Nat)) (h : Handler)
    (hr : Reachable table h) :
    ∀ k l, alookup h.leasesIP k = some l →
      alookup h.leasesHW l.hardwareAddr = some k :=
  (reachable_fullInv table h hr).2

theorem c4_index_agreement_amended_witness :
    alookup c4After.leasesHW "aa:bb:cc:00:00:04" = some 3 :=
  c4_index_agreement_amended [] c4After
    (Reachable.step c4Handler c4Packet .request 2000 0 0
      (by decide : (167772173 : Nat) < 4294967296)
      (Reachable.restore c4Handler (by decide) c4Handler_fullInv))
    3 c4LeaseY (by decide)

/-- C9, counterexample: a DECLINE from the lease's owner mutates the
stored lease (its expiry changes) while the observer is registered, yet no
snapshot is published. -/
theorem c9_observer_counterexample :
    c9Handler.leasesCb = true ∧
    (serveDHCP [] c9Handler c9Packet .decline 10 1000 0).state ≠ c9Handler ∧
    (serveDHCP [] c9Handler c9Packet .decline 10 1000 0).notifs = [] := by
  refine ⟨by decide, by decide, by decide⟩

/-- C9, amended: with the observer registered, the lease store of
REQUEST/ACK publishes exactly one snapshot, and a successful SetHostname
publishes exactly one snapshot; the expiry marking of DECLINE never
invokes the observer (matching the code's own comment that the observer is
called when a lease is handed out). -/
theorem c9_observer_amended (table : List (List Nat)) (h : Handler)
    (p : Packet) (now wallNow : Nat) (rnd : Int) (hw name : String)
    (h' : Handler) (ns : List (List Lease × Lease)) :
    (h.leasesCb = true → wrongServerB h p = false →
      canLease h (effReqIP p) p.chaddr now ≠ -1 →
      (serveDHCP table h p .request now wallNow rnd).notifs.length = 1) ∧
    (h.leasesCb = true →
      setHostname h hw name now = HostnameResult.ok h' ns →
      ns.length = 1) ∧
    (serveDHCP table h p .decline now wallNow rnd).notifs = [] := by
  refine ⟨?_, ?_, ?_⟩
  · intro hcb hws hne
    show (serveRequest table h p now).notifs.length = 1
    unfold serveRequest
    rw [if_neg (by rw [hws]; exact Bool.false_ne_true)]
    unfold serveRequestBody
    rw [if_neg hne]
    exact requestAck_notifs_len table h p now
      (canLease h (effReqIP p) p.chaddr now) hcb
  · intro hcb hok
    exact setHostname_ok_notifs h hw name now h' ns hcb hok
  · exact serveDecline_notifs h p wallNow

theorem c9_observer_amended_witness :
    (serveDHCP [] c9ReqHandler c9ReqPacket .request 10 0 0).notifs.length = 1 ∧
    c9HostNotifs.length = 1 ∧
    (serveDHCP [] c9Handler c9Packet .decline 10 1000 0).notifs = [] := by
  refine ⟨?_, ?_, ?_⟩
  · exact (c9_observer_amended [] c9ReqHandler c9ReqPacket 10 0 0 "" ""
      c9ReqHandler []).1 rfl rfl (by decide)
  · exact (c9_observer_amended [] c9Handler c9Packet 10 1000 0
      "aa:bb:cc:00:00:09" "pc" c9HostAfter c9HostNotifs).2.1 rfl (by decide)
  · exact (c9_observer_amended [] c9Handler c9Packet 10 1000 0 "" ""
      c9Handler []).2.2

/-- C10: `leaseHW` succeeds exactly when `leases_by_hw` has the key, the
offset it names is populated, and the lease there is owned by the same
hardware address; consequently a REQUEST step never removes another
client's lease from any offset other than the granted one — stale
`leases_by_hw` entries included. -/
theorem c10_leaseHW_safety (h : Handler) (hw : String) (l : Lease)
    (table : List (List Nat)) (p : Packet) (now wallNow : Nat) (rnd : Int)
    (hS : StrongInv h) :
    (leaseHW h hw = some l ↔
      ∃ n, alookup h.leasesHW hw = some n ∧ alookup h.leasesIP n = some l ∧
        l.hardwareAddr = hw) ∧
    (∀ k l0, alookup h.leasesIP k = some l0 → l0.hardwareAddr ≠ p.chaddr →
      k ≠ canLease h (effReqIP p) p.chaddr now →
      alookup (serveDHCP table h p .request now wallNow rnd).state.leasesIP k =
        some l0) := by
  refine ⟨leaseHW_char h hw l, ?_⟩
  intro k l0 hk hl0ne hkne
  show alookup (serveRequest table h p now).state.leasesIP k = some l0
  unfold serveRequest
  by_cases hws : wrongServerB h p = true
  · rw [if_pos hws]
    exact hk
  · rw [if_neg hws]
    unfold serveRequestBody
    by_cases hne : canLease h (effReqIP p) p.chaddr now = -1
    · rw [if_pos hne]
      exact hk
    · rw [if_neg hne]
      obtain ⟨l1, hstate, _, _, _, _, _⟩ := requestAck_shape table h p now
        (canLease h (effReqIP p) p.chaddr now)
      rw [hstate]
      dsimp only
      rw [alookup_ainsert]
      rw [if_neg (fun hc => hkne hc.symm)]
      cases hprev : leaseHW h p.chaddr with
      | none => exact hk
      | some lp =>
        dsimp only
        rw [alookup_adelete]
        by_cases hdel : lp.num = k
        · exfalso
          obtain ⟨m, hm, hip, hlphw⟩ := (leaseHW_char h p.chaddr lp).mp hprev
          have hmk : m = lp.num := (hS m lp hip).1
          rw [hmk, hdel] at hip
          have hcontra := hip.symm.trans hk
          injection hcontra with hcontra'
          rw [hcontra'] at hlphw
          exact hl0ne hlphw
        · rw [if_neg hdel]
          exact hk

theorem c10Handler_strongInv : StrongInv c10Handler := by
  intro k l hk
  obtain ⟨h1, hl⟩ := alookup_singleton 1 k c10LeaseZ l hk
  subst hl
  subst h1
  exact ⟨by decide, by decide, by decide, by decide⟩

theorem c10_leaseHW_safety_witness :
    leaseHW c10Handler "aa:bb:cc:00:00:0a" = some c10LeaseZ ∧
    alookup (serveDHCP [] c10Handler c10Packet .request 0 0
      0).state.leasesIP 1 = some c10LeaseZ := by
  refine ⟨?_, ?_⟩
  · exact (c10_leaseHW_safety c10Handler "aa:bb:cc:00:00:0a" c10LeaseZ []
      c10Packet 0 0 0 c10Handler_strongInv).1.mpr
      ⟨1, by decide, by decide, by decide⟩
  · exact (c10_leaseHW_safety c10Handler "aa:bb:cc:00:00:0a" c10LeaseZ []
      c10Packet 0 0 0 c10Handler_strongInv).2 1 c10LeaseZ (by decide)
      (by decide) (by decide)

/-- C8: over any sorted vendor prefix table (the contents of
`nintendoMacPrefixes` are not in the sources), `lease_period_for` equals
one hour exactly when the MAC parses to 6 bytes whose 3-byte OUI is a
member of the table, and the configured default otherwise; whenever the
default differs from one hour this is an equivalence; and the duration
placed in a DISCOVER OFFER and in a REQUEST ACK is exactly
`lease_period_for` of the client's hardware address. -/
theorem c8_vendor_lease_period (table : List (List Nat))
    (hsorted : List.Pairwise leB table) (h : Handler) (hw : String)
    (p : Packet) (now wallNow : Nat) (rnd : Int) :
    leasePeriodForDevice table h hw =
      (if ouiInTable table hw = true then hourDuration else h.leasePeriod) ∧
    (h.leasePeriod ≠ hourDuration →
      (leasePeriodForDevice table h hw = hourDuration ↔
        ouiInTable table hw = true)) ∧
    (∀ r, (serveDHCP table h p .discover now wallNow rnd).reply = some r →
      r.duration = leasePeriodForDevice table h p.chaddr) ∧
    (∀ r, (serveDHCP table h p .request now wallNow rnd).reply = some r →
      r.rtype = ReplyType.ack →
      r.duration = leasePeriodForDevice table h p.chaddr) := by
  refine ⟨leasePeriodForDevice_eq table hsorted h hw, ?_, ?_, ?_⟩
  · intro hne
    rw [leasePeriodForDevice_eq table hsorted h hw]
    by_cases hoc : ouiInTable table hw = true
    · simp [hoc]
    · simp [hoc, hne]
  · intro r hr
    exact discover_offer_duration table h p now rnd r hr
  · intro r hr hack
    exact serveRequest_ack_duration table h p now r hr hack

theorem c8_vendor_lease_period_witness :
    leasePeriodForDevice c8Table c8Handler "00:17:ab:00:00:01" =
      (if ouiInTable c8Table "00:17:ab:00:00:01" = true then hourDuration
       else c8Handler.leasePeriod) ∧
    (∀ r, (serveDHCP c8Table c8Handler c8Packet .discover 0 0 0).reply =
        some r →
      r.duration = leasePeriodForDevice c8Table c8Handler c8Packet.chaddr) := by
  refine ⟨?_, ?_⟩
  · exact (c8_vendor_lease_period c8Table (by decide) c8Handler
      "00:17:ab:00:00:01" c8Packet 0 0 0).1
  · exact (c8_vendor_lease_period c8Table (by decide) c8Handler
      "00:17:ab:00:00:01" c8Packet 0 0 0).2.2.1
